import Mathlib

/-!
Verification of the `rsum` command-line tool (src/main.rs).

The program is embedded shallowly: Rust strings become `List Char`,
`Result<T, String>` becomes `Except Str T`, and IEEE-754 single-precision
values are modelled exactly as integer multiples of 2⁻¹⁴⁹ (every finite
`f32` is such a multiple), with round-to-nearest-even rounding implemented
over exact rational inputs given as numerator/denominator pairs.
The model collapses the two IEEE zeros into one and ignores NaN payloads;
no claim below depends on that distinction.
-/

set_option maxRecDepth 100000

namespace Rsum

/-- Characters of a Rust `String`; the whole embedding works over `List Char`. -/
abbrev Str := List Char

/-- The Unicode `White_Space` characters, as recognized by Rust `char::is_whitespace`
(used by `str::trim`). -/
def wsChars : Str :=
  [' ', '\t', '\n', '\u000B', '\u000C', '\r', '\u0085', '\u00A0', '\u1680', '\u2000', '\u2001', '\u2002', '\u2003', '\u2004', '\u2005', '\u2006', '\u2007', '\u2008', '\u2009', '\u200A', '\u2028', '\u2029', '\u202F', '\u205F', '\u3000']

/-- Rust `char::is_whitespace`. -/
def rustWs (c : Char) : Bool := wsChars.contains c

/-- Rust `"…".chars().filter(|&c| c != ',')` — the comma stripping on line 84. -/
def stripCommas (s : Str) : Str := s.filter (fun c => c != ',')

/-- Rust `str::trim`: drop Unicode whitespace from both ends. -/
def rustTrim (s : Str) : Str := ((s.dropWhile rustWs).reverse.dropWhile rustWs).reverse

/-- Prepend a character to the first piece of a split (helper for `splitCh`). -/
def consHead (c : Char) : List Str → List Str
  | [] => [[c]]
  | t :: ts => (c :: t) :: ts

/-- Rust `str::split(d)` for a single-character pattern: always returns at least
one piece; consecutive delimiters yield empty pieces. -/
def splitCh (d : Char) : Str → List Str
  | [] => [[]]
  | c :: cs => if c = d then [] :: splitCh d cs else consHead c (splitCh d cs)

/-- Lines split on newline, each split on single spaces, flattened — the
`split('\n').map(|line| line.split(' ')).flatten()` chain of lines 85–90. -/
def tokensOf (t : Str) : List Str := ((splitCh '\n' t).map (splitCh ' ')).flatten

/-- The token sequence `parse_num_str` works on: comma stripping, trimming,
then the newline/space split. -/
def extractTokens (s : Str) : List Str := tokensOf (rustTrim (stripCommas s))

/-- True for a delimiter of the token split (used only in proofs, to show the
two-stage split equals a one-stage split on both delimiters). -/
def isDelim (c : Char) : Bool := c == ' ' || c == '\n'

/-- One-stage split on both ' ' and '\n' (proof-side companion of `tokensOf`). -/
def splitBoth : Str → List Str
  | [] => [[]]
  | c :: cs => if isDelim c then [] :: splitBoth cs else consHead c (splitBoth cs)

/-! ### The f32 model -/

/-- An IEEE-754 single-precision value. A finite value is stored as its exact
multiple of 2⁻¹⁴⁹ (the smallest subnormal); ±0 are collapsed and NaN payloads
dropped. -/
inductive F32 where
  | finite (scaled : Int)
  | posInf
  | negInf
  | nan
deriving DecidableEq

/-- Decidable equality for `Except`, which core does not provide. -/
def exceptDecEq {α β : Type} [DecidableEq α] [DecidableEq β] :
    (a b : Except α β) → Decidable (a = b)
  | .error x, .error y =>
    if h : x = y then .isTrue (by rw [h]) else .isFalse (by simp [h])
  | .error _, .ok _ => .isFalse (by simp)
  | .ok _, .error _ => .isFalse (by simp)
  | .ok x, .ok y =>
    if h : x = y then .isTrue (by rw [h]) else .isFalse (by simp [h])

instance {α β : Type} [DecidableEq α] [DecidableEq β] : DecidableEq (Except α β) :=
  exceptDecEq

/-- Round `n / d` to the nearest integer, ties to even (`n ≥ 0`, `d > 0`). -/
def rndNat (n d : Nat) : Nat :=
  let q := n / d
  let r := n % d
  if 2 * r < d then q
  else if d < 2 * r then q + 1
  else if q % 2 = 0 then q else q + 1

/-- Smallest `k ≤ fuel` with `n·2^k ≥ d` (so `2⁻ᵏ ≤ n/d` when `n < d`);
returns `fuel` when the value is smaller than `2^(-fuel)`, which is only
used to detect "deep subnormal" and never needs to be exact below 2⁻¹²⁶. -/
def negExp (n d : Nat) : Nat → Nat
  | 0 => 0
  | fuel + 1 => if d ≤ n then 0 else negExp (2 * n) d fuel + 1

/-- Base-2 logarithm by structural recursion on a fuel argument (the core
`Nat.log2` is defined by well-founded recursion and does not evaluate). -/
def log2Aux (n : Nat) : Nat → Nat
  | 0 => 0
  | fuel + 1 => if 2 ≤ n then log2Aux (n / 2) fuel + 1 else 0

/-- `⌊log₂ n⌋` for `n ≥ 1`: the fuel `n` always suffices. -/
def log2F (n : Nat) : Nat := log2Aux n n

/-- Scaled magnitude (value·2¹⁴⁹) of the f32 nearest to `n / d > 0`
(round-to-nearest-even, unbounded above; overflow is cut off in `mkPos`). -/
def roundPosScaled (n d : Nat) : Nat :=
  let e : Int := if d ≤ n then ((log2F (n / d)) : Nat) else -(((negExp n d 150) : Nat) : Int)
  let eff : Int := max e (-126)
  let m : Nat :=
    if 0 ≤ 23 - eff then rndNat (n * 2 ^ (23 - eff).toNat) d
    else rndNat n (d * 2 ^ (eff - 23).toNat)
  m * 2 ^ (eff + 126).toNat

/-- The f32 nearest to the positive rational `n / d`, with overflow to `+∞`
(a rounded magnitude of `2¹²⁸ = 2²⁷⁷·2⁻¹⁴⁹` or more overflows; the threshold
is written as a product to keep power literals small enough to evaluate). -/
def mkPos (n d : Nat) : F32 :=
  let s := roundPosScaled n d
  if 2 ^ 139 * 2 ^ 138 ≤ s then .posInf else .finite (s : Int)

/-- IEEE negation. -/
def negF32 : F32 → F32
  | .finite s => .finite (-s)
  | .posInf => .negInf
  | .negInf => .posInf
  | .nan => .nan

/-- The f32 nearest to the decimal `±m·10^e` (Rust's float parsing is correctly
rounded, so this is the value `str::parse::<f32>` produces). -/
def mkF32 (neg : Bool) (m : Nat) (e : Int) : F32 :=
  if m = 0 then .finite 0
  else
    let f := if 0 ≤ e then mkPos (m * 10 ^ e.toNat) 1 else mkPos m (10 ^ (-e).toNat)
    if neg then negF32 f else f

/-- Round an exact scaled value (a multiple of 2⁻¹⁴⁹, e.g. an exact sum of two
finite f32) back to f32. -/
def roundScaled (s : Int) : F32 :=
  if s = 0 then .finite 0
  else if 0 < s then mkPos s.toNat (2 ^ 149)
  else negF32 (mkPos (-s).toNat (2 ^ 149))

/-- IEEE-754 single-precision addition. -/
def addF32 : F32 → F32 → F32
  | .nan, _ => .nan
  | _, .nan => .nan
  | .posInf, .negInf => .nan
  | .negInf, .posInf => .nan
  | .posInf, _ => .posInf
  | _, .posInf => .posInf
  | .negInf, _ => .negInf
  | _, .negInf => .negInf
  | .finite a, .finite b => roundScaled (a + b)

/-- Rust `iter().sum::<f32>()`: left fold of `+` starting from `0.0` (line 39). -/
def sumF32 (l : List F32) : F32 := l.foldl addF32 (.finite 0)

/-- Exact rational value of a finite f32 (0 for the non-finite values; only
ever applied to finite ones in the statements below). -/
def toRat32 : F32 → ℚ
  | .finite s => (s : ℚ) / 2 ^ 149
  | _ => 0

/-! ### The grammar of Rust `str::parse::<f32>` -/

/-- Decimal digit test. -/
def digitB (c : Char) : Bool := decide ('0' ≤ c) && decide (c ≤ '9')

/-- Numeric value of a decimal digit. -/
def digVal (c : Char) : Nat := c.toNat - '0'.toNat

/-- Consume leading digits, returning their value, how many there were, and
the rest of the input. -/
def takeDigitsAux (acc cnt : Nat) : Str → Nat × Nat × Str
  | [] => (acc, cnt, [])
  | c :: cs =>
    if digitB c then takeDigitsAux (10 * acc + digVal c) (cnt + 1) cs
    else (acc, cnt, c :: cs)

/-- Consume leading digits of `s`. -/
def takeDigits (s : Str) : Nat × Nat × Str := takeDigitsAux 0 0 s

/-- Parse the digits of an exponent part (after `e`/`E` and an optional sign);
the whole rest of the token must be digits, at least one. -/
def expDigits (m : Nat) (e : Int) (pos : Bool) (ds : Str) : Option (Nat × Int) :=
  let (v, cnt, rest) := takeDigits ds
  if cnt = 0 ∨ rest ≠ [] then none
  else some (m, e + (if pos then (v : Int) else -(v : Int)))

/-- Parse an optional exponent part; anything else trailing fails. -/
def parseExpThen (m : Nat) (e : Int) : Str → Option (Nat × Int)
  | [] => some (m, e)
  | c :: cs =>
    if c = 'e' ∨ c = 'E' then
      match cs with
      | '+' :: ds => expDigits m e true ds
      | '-' :: ds => expDigits m e false ds
      | ds => expDigits m e true ds
    else none

/-- The `Number` production of Rust's float grammar
(`Digit+ | Digit+ '.' Digit* | Digit* '.' Digit+`, then an optional exponent):
the result is the exact decimal value `m·10^e`. -/
def parseNumber (s : Str) : Option (Nat × Int) :=
  let (ip, ic, r1) := takeDigits s
  match r1 with
  | '.' :: r2 =>
    let (fp, fc, r3) := takeDigits r2
    if ic + fc = 0 then none
    else parseExpThen (ip * 10 ^ fc + fp) (-(fc : Int)) r3
  | rest =>
    if ic = 0 then none else parseExpThen ip 0 rest

/-- ASCII lower-casing (for the case-insensitive `inf`/`infinity`/`nan` forms). -/
def lowerCh (c : Char) : Char :=
  if 'A' ≤ c ∧ c ≤ 'Z' then Char.ofNat (c.toNat + 32) else c

/-- Rust `str::parse::<f32>`: optional sign, then `inf`/`infinity`/`nan`
(case-insensitive) or a decimal number, correctly rounded to f32.
`none` models `Err(ParseFloatError)`. -/
def parseF32 (s : Str) : Option F32 :=
  let (neg, r) :=
    match s with
    | '-' :: t => (true, t)
    | '+' :: t => (false, t)
    | t => (false, t)
  let rl := r.map lowerCh
  if rl = ("inf".data) ∨ rl = ("infinity".data) then
    some (if neg then .negInf else .posInf)
  else if rl = ("nan".data) then some .nan
  else
    match parseNumber r with
    | none => none
    | some p => some (mkF32 neg p.1 p.2)

/-! ### parse_num_str, parse_args, main -/

/-- ASCII apostrophe, used by the `Failed to parse` message. -/
def sq : Char := Char.ofNat 39

/-- The message of `format!("Failed to parse 'TOKEN'")` on line 96 (with the
token quoted between two apostrophes). -/
def errMsg (t : Str) : Str := ("Failed to parse ".data) ++ sq :: (t ++ [sq])

/-- Lines 92–100 of `parse_num_str`: parse every token (`parse_results` in the
code is `toks.map parseF32`), return an error naming the first token whose
parse failed, otherwise flatten the `Ok` results into the list of values. -/
def parseNumStrCore (toks : List Str) : Except Str (List F32) :=
  match ((toks.map parseF32).zip toks).find? (fun p => p.1.isNone) with
  | some p => .error (errMsg p.2)
  | none => .ok ((toks.map parseF32).filterMap id)

/-- Rust `parse_num_str` (lines 83–101): strip commas, trim, split on newlines
and single spaces, parse every token as f32. -/
def parse_num_str (s : Str) : Except Str (List F32) := parseNumStrCore (extractTokens s)

/-- The composite the spec calls `parse_and_sum`: `parse_num_str` followed by
the `iter().sum::<f32>()` of line 39. -/
def parse_and_sum (s : Str) : Except Str F32 := (parse_num_str s).map sumF32

/-- The `Config` enum of lines 14–20 (`File` keeps the path as text;
`PathBuf::from` does not alter it). -/
inductive Config where
  | Stdin
  | CliArg (input : Str)
  | File (path : Str)
  | PrintHelp
deriving DecidableEq

/-- The joining fold of lines 63–73: each argument is appended, followed by a
space unless it is the last one. -/
def foldJoin (rest : List Str) : Str :=
  rest.enum.foldl
    (fun acc p => acc ++ p.2 ++ (if p.1 < rest.length - 1 then [' '] else [])) []

/-- `parse_args` after `skip(1)`: the match of lines 52–80 over the arguments
following the program name. -/
def parseArgsCore : List Str → Except Str Config
  | [] => .ok .Stdin
  | first :: rest =>
    if first = ("-f".data) then
      match rest with
      | [] => .error ("Missing path to file.".data)
      | path :: _ => .ok (.File path)
    else if first = ("-h".data) then .ok .PrintHelp
    else .ok (.CliArg (foldJoin (first :: rest)))

/-- Rust `parse_args` (lines 46–81): the very first argument (the program
name) is skipped. -/
def parse_args (args : List Str) : Except Str Config := parseArgsCore (args.drop 1)

/-- Observable result of one run of `main`: the computed sum, an error
returned from `main` (printed with a non-zero exit), a panic (the `.unwrap()`
on line 28), or the help/exit(0) path. -/
inductive Outcome where
  | ok (sum : F32)
  | err (e : Str)
  | panicked (e : Str)
  | helpExited
deriving DecidableEq

/-- True exactly for the `Outcome.err` failure mode (an error value returned
from `main`). -/
def isErrOutcome : Outcome → Bool
  | .err _ => true
  | _ => false

/-- Line 39 onward: parse the acquired text and sum. -/
def runSum (input : Str) : Outcome :=
  match parse_num_str input with
  | .error e => .err e
  | .ok l => .ok (sumF32 l)

/-- Rust `main` (lines 22–44), with the environment made explicit: `stdinRes`
is what `read_to_string` on stdin would yield, `readAll` what
`fs::read_to_string` yields per path (already rendered to a message on error,
as `map_err(|e| e.to_string())` does). The stdin branch calls `.unwrap()`,
so an `Err` there panics instead of flowing into `main`'s error return. -/
def mainRun (args : List Str) (stdinRes : Except Str Str)
    (readAll : Str → Except Str Str) : Outcome :=
  match parse_args args with
  | .error e => .err e
  | .ok .Stdin =>
    match stdinRes with
    | .error e => .panicked e
    | .ok buf => runSum buf
  | .ok (.CliArg input) => runSum input
  | .ok (.File path) =>
    match readAll path with
    | .error e => .err e
    | .ok s => runSum s
  | .ok .PrintHelp => .helpExited

/-! ### Spec-side definitions (for refinement statements) -/

/-- Modelled from the spec: arguments joined "with single-space separators,
preserving order, with no trailing separator". Compared against `foldJoin`,
the joining the code actually performs. -/
def specJoin : List Str → Str
  | [] => []
  | [s] => s
  | s :: t :: ts => s ++ ' ' :: specJoin (t :: ts)

/-- The relation of claim C6: the second string is the first with some subset
of its space characters replaced by newlines (all other characters equal). -/
def spaceToNl : Str → Str → Bool
  | [], [] => true
  | c :: cs, c2 :: cs2 => (c2 == c || (c == ' ' && c2 == '\n')) && spaceToNl cs cs2
  | _, _ => false

/-! ### Lemmas about the argument joining -/

/-- The indexed fold of lines 63–73 equals the plain single-space join, for
any starting index and accumulator. -/
lemma foldJoin_go (l : List Str) (k : Nat) (acc : Str) (n : Nat) (h : k + l.length = n) :
    (List.enumFrom k l).foldl
      (fun a p => a ++ p.2 ++ (if p.1 < n - 1 then [' '] else [])) acc
      = acc ++ specJoin l := by
  induction l generalizing k acc with
  | nil => simp [specJoin, List.enumFrom]
  | cons s t ih =>
    cases t with
    | nil =>
      have hk : ¬ k < n - 1 := by simp at h; omega
      simp [List.enumFrom, specJoin, hk]
    | cons u v =>
      have hk : k < n - 1 := by simp at h; omega
      have h2 : (k + 1) + (u :: v).length = n := by simp at h ⊢; omega
      have hrec := ih (k + 1) (acc ++ s ++ [' ']) h2
      simp only [List.enumFrom, List.foldl_cons, hk, if_pos] at hrec ⊢
      rw [hrec]
      simp [specJoin, List.append_assoc]

/-- The joining the code performs equals the single-space join of the spec. -/
lemma foldJoin_eq_specJoin (l : List Str) : foldJoin l = specJoin l := by
  have h := foldJoin_go l 0 [] l.length (by simp)
  simpa [foldJoin, List.enum] using h

/-! ### Theorems about parse_args (claims C3, C4, C10) -/

/-- C3: whenever the first argument after the program name is neither `-f` nor
`-h`, `parse_args` returns the literal-input mode carrying all arguments after
the program name joined by exactly one space between consecutive arguments,
in order, with no trailing separator (`specJoin` is that join). -/
theorem parse_args_joins_bare_args (a0 first : Str) (rest : List Str)
    (hf : first ≠ ("-f".data)) (hh : first ≠ ("-h".data)) :
    parse_args (a0 :: first :: rest) = .ok (.CliArg (specJoin (first :: rest))) := by
  simp [parse_args, parseArgsCore, hf, hh, foldJoin_eq_specJoin]

/-- Witness for C3 at a concrete argument list. -/
theorem parse_args_joins_bare_args_witness :
    parse_args [("rsum".data), ("1".data), ("2".data), ("3".data)]
      = .ok (.CliArg (specJoin [("1".data), ("2".data), ("3".data)])) :=
  parse_args_joins_bare_args _ _ _ (by decide) (by decide)

/-- Core of C4, stated over the arguments after the program name. -/
lemma parseArgsCore_error_iff (l : List Str) :
    (parseArgsCore l = .error ("Missing path to file.".data) ↔ l = [("-f".data)])
    ∧ (∀ e, parseArgsCore l = .error e → e = ("Missing path to file.".data))
    ∧ (l ≠ [("-f".data)] → ∃ c, parseArgsCore l = .ok c) := by
  match l with
  | [] =>
    refine ⟨by simp [parseArgsCore], by simp [parseArgsCore], fun _ => ⟨.Stdin, rfl⟩⟩
  | first :: rest =>
    by_cases hf : first = ("-f".data)
    · subst hf
      cases rest with
      | nil =>
        exact ⟨by simp [parseArgsCore], fun e he => ((by simpa [parseArgsCore] using he : _ = e)).symm,
          fun h => absurd rfl h⟩
      | cons p r =>
        refine ⟨by simp [parseArgsCore], fun e he => by simp [parseArgsCore] at he,
          fun _ => ⟨.File p, by simp [parseArgsCore]⟩⟩
    · by_cases hh : first = ("-h".data)
      · subst hh
        refine ⟨by simp [parseArgsCore, hf], fun e he => by simp [parseArgsCore, hf] at he,
          fun _ => ⟨.PrintHelp, by simp [parseArgsCore, hf]⟩⟩
      · refine ⟨by simp [parseArgsCore, hf, hh], fun e he => by simp [parseArgsCore, hf, hh] at he,
          fun _ => ⟨.CliArg (foldJoin (first :: rest)), by simp [parseArgsCore, hf, hh]⟩⟩

/-- C4: `parse_args` fails exactly when the first argument after the program
name is `-f` with nothing after it, the error message is exactly
`Missing path to file.`, and every other argument list resolves to some
input mode without error. -/
theorem parse_args_error_iff (args : List Str) :
    (parse_args args = .error ("Missing path to file.".data) ↔ args.drop 1 = [("-f".data)])
    ∧ (∀ e, parse_args args = .error e → e = ("Missing path to file.".data))
    ∧ (args.drop 1 ≠ [("-f".data)] → ∃ c, parse_args args = .ok c) :=
  parseArgsCore_error_iff (args.drop 1)

/-- Witness for C4: `-f` with no path gives exactly the missing-path error. -/
theorem parse_args_error_iff_witness :
    parse_args [("rsum".data), ("-f".data)] = .error ("Missing path to file.".data) :=
  (parse_args_error_iff [("rsum".data), ("-f".data)]).1.mpr rfl

/-- C10: `-f` followed by a path resolves to file mode carrying exactly that
path; any later arguments are ignored without error. -/
theorem parse_args_file_mode (a0 p : Str) (rest : List Str) :
    parse_args (a0 :: ("-f".data) :: p :: rest) = .ok (.File p) := by
  simp [parse_args, parseArgsCore]

/-! ### Lemmas about the token pipeline -/

/-- Finding the first failed parse among the zipped (result, token) pairs is
finding the first failing token. -/
lemma find_zip_map (toks : List Str) :
    ((toks.map parseF32).zip toks).find? (fun p => p.1.isNone)
      = (toks.find? (fun tk => (parseF32 tk).isNone)).map (fun tk => (parseF32 tk, tk)) := by
  induction toks with
  | nil => rfl
  | cons t ts ih =>
    by_cases h : (parseF32 t).isNone
    · simp [List.find?_cons_of_pos, h]
    · rw [List.map_cons, List.zip_cons_cons, List.find?_cons_of_neg _ (by simpa using h),
        List.find?_cons_of_neg _ (by simpa using h), ih]

/-- `filterMap id` keeps everything when every entry is `some`. -/
lemma filterMap_id_length {α : Type} (l : List (Option α)) (h : ∀ x ∈ l, x.isSome) :
    (l.filterMap id).length = l.length := by
  induction l with
  | nil => rfl
  | cons a as ih =>
    cases a with
    | none => exact absurd (h none (by simp)) (by simp)
    | some v =>
      simp only [List.filterMap_cons, id, List.length_cons]
      rw [ih (fun x hx => h x (by simp [hx]))]

/-- The empty token never parses as a number. -/
lemma parseF32_nil : parseF32 [] = none := rfl

/-- Removing commas is idempotent. -/
lemma stripCommas_idem (s : Str) : stripCommas (stripCommas s) = stripCommas s := by
  induction s with
  | nil => rfl
  | cons c cs ih =>
    by_cases h : c = ','
    · simp [stripCommas, h, ih]
    · simp [stripCommas, h, ih]

/-- A string of whitespace contains no comma, so comma stripping keeps it. -/
lemma all_ws_strip (s : Str) (h : s.all rustWs = true) : stripCommas s = s := by
  unfold stripCommas
  rw [List.filter_eq_self]
  intro c hc
  have hw : rustWs c = true := List.all_eq_true.mp h c hc
  by_cases hcomma : c = ','
  · subst hcomma; exact absurd hw (by decide)
  · simpa using hcomma

/-- Trimming a string of whitespace leaves nothing. -/
lemma all_ws_trim (s : Str) (h : s.all rustWs = true) : rustTrim s = [] := by
  unfold rustTrim
  have h1 : s.dropWhile rustWs = [] :=
    List.dropWhile_eq_nil_iff.mpr (fun x hx => List.all_eq_true.mp h x hx)
  rw [h1]
  rfl

/-! ### Theorems about parse_num_str (claims C1, C5, C8, C9) -/

/-- C1: if some token fails to parse, `parse_num_str` returns the error whose
message is exactly `Failed to parse 'TOKEN'` (built by `errMsg`) for the first
failing token in sequence order, so no list of parsed numbers is produced. -/
theorem parse_num_str_first_fail (s t : Str)
    (h : (extractTokens s).find? (fun tk => (parseF32 tk).isNone) = some t) :
    parse_num_str s = .error (errMsg t) := by
  unfold parse_num_str parseNumStrCore
  rw [find_zip_map, h]
  rfl

/-- Witness for C1: in `1 2 x 3` the first failing token is `x` and the
result is exactly the `Failed to parse 'x'` error. -/
theorem parse_num_str_first_fail_witness :
    (extractTokens ("1 2 x 3".data)).find? (fun tk => (parseF32 tk).isNone)
        = some ("x".data)
    ∧ parse_num_str ("1 2 x 3".data) = .error (errMsg ("x".data)) :=
  ⟨by decide, parse_num_str_first_fail _ _ (by decide)⟩

/-- C5: `parse_num_str` gives the same outcome on a string and on the string
with every comma removed; in particular the two example inputs give the same
parse and hence the same sum. -/
theorem parse_num_str_comma_insensitive :
    (∀ s : Str, parse_num_str s = parse_num_str (stripCommas s))
    ∧ parse_num_str ("0.1 10 20.5 30,000 40.".data)
        = parse_num_str ("0.1 10 20.5 30000 40.".data)
    ∧ parse_and_sum ("0.1 10 20.5 30,000 40.".data)
        = parse_and_sum ("0.1 10 20.5 30000 40.".data) := by
  have key : ∀ s : Str, parse_num_str s = parse_num_str (stripCommas s) := by
    intro s
    unfold parse_num_str extractTokens
    rw [stripCommas_idem]
  have h2 : parse_num_str ("0.1 10 20.5 30,000 40.".data)
      = parse_num_str ("0.1 10 20.5 30000 40.".data) := by
    rw [key ("0.1 10 20.5 30,000 40.".data)]
    rfl
  exact ⟨key, h2, by unfold parse_and_sum; rw [h2]⟩

/-- C8: on success the list of parsed numbers has exactly one element per
non-empty token of the split (and in fact every token of a successful parse
is non-empty). -/
theorem parse_num_str_length (s : Str) (l : List F32)
    (h : parse_num_str s = .ok l) :
    l.length = ((extractTokens s).filter (fun tk => !tk.isEmpty)).length := by
  unfold parse_num_str parseNumStrCore at h
  rw [find_zip_map] at h
  cases hf : (extractTokens s).find? (fun tk => (parseF32 tk).isNone) with
  | some t => rw [hf] at h; simp at h
  | none =>
    rw [hf] at h
    have hl : ((extractTokens s).map parseF32).filterMap id = l := by
      simpa using h
    have hall : ∀ tk ∈ extractTokens s, (parseF32 tk).isSome := by
      intro tk htk
      have hne := List.find?_eq_none.mp hf tk htk
      simpa [Option.isNone_iff_eq_none, Option.isSome_iff_ne_none] using hne
    have hlen : l.length = (extractTokens s).length := by
      rw [← hl, filterMap_id_length]
      · simp
      · intro x hx
        rcases List.mem_map.mp hx with ⟨tk, htk, rfl⟩
        exact hall tk htk
    have hfilter : (extractTokens s).filter (fun tk => !tk.isEmpty) = extractTokens s := by
      rw [List.filter_eq_self]
      intro tk htk
      cases tk with
      | nil => exact absurd (hall [] htk) (by simp [parseF32_nil])
      | cons c cs => simp
    rw [hlen, hfilter]

/-- Witness for C8: `1 2` parses to two values and the split has two
non-empty tokens. -/
theorem parse_num_str_length_witness :
    parse_num_str ("1 2".data) = .ok [.finite (2 ^ 149), .finite (2 ^ 150)]
    ∧ ([F32.finite (2 ^ 149), F32.finite (2 ^ 150)]).length
        = ((extractTokens ("1 2".data)).filter (fun tk => !tk.isEmpty)).length :=
  ⟨by decide, parse_num_str_length _ _ (by decide)⟩

/-- C9: an input that is empty or all whitespace trims to nothing, the split
still produces one (empty) token, and `parse_num_str` fails with exactly the
message `Failed to parse ''` — it does not succeed with a sum of 0. -/
theorem parse_num_str_all_ws (s : Str) (h : s.all rustWs = true) :
    parse_num_str s = .error (errMsg []) := by
  unfold parse_num_str extractTokens
  rw [all_ws_strip s h, all_ws_trim s h]
  rfl

/-- Witness for C9 on a sample whitespace string. -/
theorem parse_num_str_all_ws_witness :
    ((" \n ".data).all rustWs = true)
    ∧ parse_num_str (" \n ".data) = .error (errMsg []) :=
  ⟨by decide, parse_num_str_all_ws _ (by decide)⟩

/-! ### Lemmas for delimiter insensitivity (claim C6) -/

/-- Splitting a boolean conjunction (stated as an iff for forward/backward use). -/
lemma bool_and_split (a b : Bool) : (a && b) = true ↔ a = true ∧ b = true := by
  cases a <;> cases b <;> simp

/-- Unfolding equation of `spaceToNl` on two nonempty strings. -/
lemma spaceToNl_cons (c c2 : Char) (cs cs2 : Str) :
    spaceToNl (c :: cs) (c2 :: cs2)
      = ((c2 == c || (c == ' ' && c2 == '\n')) && spaceToNl cs cs2) := rfl

/-- Only the empty string is related to the empty string. -/
lemma spaceToNl_nil_left (t : Str) (h : spaceToNl [] t = true) : t = [] := by
  cases t with
  | nil => rfl
  | cons a b => simp [spaceToNl] at h

/-- The head condition of `spaceToNl`, in propositional form. -/
lemma R_split {c c2 : Char} (h : (c2 == c || (c == ' ' && c2 == '\n')) = true) :
    c2 = c ∨ (c = ' ' ∧ c2 = '\n') := by
  simpa using h

/-- Replacing a space by a newline does not change whitespace-ness. -/
lemma rel_ws {c c2 : Char} (h : (c2 == c || (c == ' ' && c2 == '\n')) = true) :
    rustWs c2 = rustWs c := by
  rcases R_split h with rfl | ⟨rfl, rfl⟩
  · rfl
  · decide

/-- Replacing a space by a newline does not change comma-ness. -/
lemma rel_comma {c c2 : Char} (h : (c2 == c || (c == ' ' && c2 == '\n')) = true) :
    (c2 != ',') = (c != ',') := by
  rcases R_split h with rfl | ⟨rfl, rfl⟩
  · rfl
  · decide

/-- Comma stripping preserves the space-to-newline relation. -/
lemma rel_stripCommas : ∀ s t, spaceToNl s t = true →
    spaceToNl (stripCommas s) (stripCommas t) = true := by
  intro s
  induction s with
  | nil =>
    intro t h
    rw [spaceToNl_nil_left t h]
    simp [stripCommas, spaceToNl]
  | cons c cs ih =>
    intro t h
    cases t with
    | nil => simp [spaceToNl] at h
    | cons c2 cs2 =>
      rw [spaceToNl_cons] at h
      obtain ⟨h1, h2⟩ := (bool_and_split _ _).mp h
      have hcs := ih cs2 h2
      by_cases hc : c = ','
      · have hc2 : c2 = ',' := by
          rcases R_split h1 with rfl | ⟨rfl, rfl⟩
          · exact hc
          · exact absurd hc (by decide)
        subst hc hc2
        simpa [stripCommas] using hcs
      · have hc2 : ¬ c2 = ',' := by
          rcases R_split h1 with rfl | ⟨rfl, rfl⟩
          · exact hc
          · decide
        simp only [stripCommas, List.filter_cons] at hcs ⊢
        rw [if_pos (by simpa using hc), if_pos (by simpa using hc2), spaceToNl_cons]
        exact (bool_and_split _ _).mpr ⟨h1, hcs⟩

/-- Dropping leading whitespace preserves the space-to-newline relation. -/
lemma rel_dropWhile : ∀ s t, spaceToNl s t = true →
    spaceToNl (s.dropWhile rustWs) (t.dropWhile rustWs) = true := by
  intro s
  induction s with
  | nil =>
    intro t h
    rw [spaceToNl_nil_left t h]
    rfl
  | cons c cs ih =>
    intro t h
    cases t with
    | nil => simp [spaceToNl] at h
    | cons c2 cs2 =>
      rw [spaceToNl_cons] at h
      obtain ⟨h1, h2⟩ := (bool_and_split _ _).mp h
      by_cases hw : rustWs c = true
      · have hw2 : rustWs c2 = true := by rw [rel_ws h1]; exact hw
        rw [List.dropWhile_cons_of_pos hw, List.dropWhile_cons_of_pos hw2]
        exact ih cs2 h2
      · have hw2 : ¬ rustWs c2 = true := by rw [rel_ws h1]; exact hw
        rw [List.dropWhile_cons_of_neg hw, List.dropWhile_cons_of_neg hw2, spaceToNl_cons]
        exact (bool_and_split _ _).mpr ⟨h1, h2⟩

/-- The space-to-newline relation is compatible with append. -/
lemma rel_append : ∀ s t u v, spaceToNl s t = true → spaceToNl u v = true →
    spaceToNl (s ++ u) (t ++ v) = true := by
  intro s
  induction s with
  | nil =>
    intro t u v h1 h2
    rw [spaceToNl_nil_left t h1]
    exact h2
  | cons c cs ih =>
    intro t u v h1 h2
    cases t with
    | nil => simp [spaceToNl] at h1
    | cons c2 cs2 =>
      rw [spaceToNl_cons] at h1
      obtain ⟨ha, hb⟩ := (bool_and_split _ _).mp h1
      rw [List.cons_append, List.cons_append, spaceToNl_cons]
      exact (bool_and_split _ _).mpr ⟨ha, ih cs2 u v hb h2⟩

/-- The space-to-newline relation is compatible with reversal. -/
lemma rel_reverse : ∀ s t, spaceToNl s t = true →
    spaceToNl s.reverse t.reverse = true := by
  intro s
  induction s with
  | nil =>
    intro t h
    rw [spaceToNl_nil_left t h]
    rfl
  | cons c cs ih =>
    intro t h
    cases t with
    | nil => simp [spaceToNl] at h
    | cons c2 cs2 =>
      rw [spaceToNl_cons] at h
      obtain ⟨ha, hb⟩ := (bool_and_split _ _).mp h
      rw [List.reverse_cons, List.reverse_cons]
      exact rel_append _ _ _ _ (ih cs2 hb)
        (by rw [spaceToNl_cons]; exact (bool_and_split _ _).mpr ⟨ha, rfl⟩)

/-- Trimming preserves the space-to-newline relation (a space and a newline
are both trimmable whitespace). -/
lemma rel_trim (s t : Str) (h : spaceToNl s t = true) :
    spaceToNl (rustTrim s) (rustTrim t) = true := by
  unfold rustTrim
  exact rel_reverse _ _ (rel_dropWhile _ _ (rel_reverse _ _ (rel_dropWhile _ _ h)))

/-- A split never returns an empty list of pieces. -/
lemma splitCh_ne_nil (d : Char) (l : Str) : splitCh d l ≠ [] := by
  cases l with
  | nil => simp [splitCh]
  | cons c cs =>
    by_cases h : c = d
    · simp [splitCh, h]
    · cases hs : splitCh d cs with
      | nil => simp [splitCh, h, hs, consHead]
      | cons a b => simp [splitCh, h, hs, consHead]

/-- The two-stage split of the code (newlines, then spaces on each line,
flattened) equals the one-stage split on both delimiters. -/
lemma tokensOf_eq_splitBoth : ∀ u : Str, tokensOf u = splitBoth u := by
  intro u
  induction u with
  | nil => rfl
  | cons c cs ih =>
    by_cases h1 : c = '\n'
    · subst h1
      show ((splitCh '\n' ('\n' :: cs)).map (splitCh ' ')).flatten = splitBoth ('\n' :: cs)
      rw [show splitCh '\n' ('\n' :: cs) = [] :: splitCh '\n' cs by simp [splitCh]]
      rw [show splitBoth ('\n' :: cs) = [] :: splitBoth cs by simp [splitBoth, isDelim]]
      rw [List.map_cons, List.flatten_cons, ← ih]
      rfl
    · by_cases h2 : c = ' '
      · subst h2
        obtain ⟨t, ts, hts⟩ := List.exists_cons_of_ne_nil (splitCh_ne_nil '\n' cs)
        show ((splitCh '\n' (' ' :: cs)).map (splitCh ' ')).flatten = splitBoth (' ' :: cs)
        rw [show splitCh '\n' (' ' :: cs) = consHead ' ' (splitCh '\n' cs) by
          simp [splitCh]]
        rw [hts, show consHead ' ' (t :: ts) = (' ' :: t) :: ts from rfl]
        rw [List.map_cons, List.flatten_cons]
        rw [show splitCh ' ' (' ' :: t) = [] :: splitCh ' ' t by simp [splitCh]]
        rw [show splitBoth (' ' :: cs) = [] :: splitBoth cs by simp [splitBoth, isDelim]]
        rw [← ih]
        rw [show tokensOf cs = ((splitCh '\n' cs).map (splitCh ' ')).flatten from rfl, hts,
          List.map_cons, List.flatten_cons]
        rfl
      · obtain ⟨t, ts, hts⟩ := List.exists_cons_of_ne_nil (splitCh_ne_nil '\n' cs)
        obtain ⟨u2, us, hus⟩ := List.exists_cons_of_ne_nil (splitCh_ne_nil ' ' t)
        show ((splitCh '\n' (c :: cs)).map (splitCh ' ')).flatten = splitBoth (c :: cs)
        rw [show splitCh '\n' (c :: cs) = consHead c (splitCh '\n' cs) by
          simp [splitCh, h1]]
        rw [hts, show consHead c (t :: ts) = (c :: t) :: ts from rfl]
        rw [List.map_cons, List.flatten_cons]
        rw [show splitCh ' ' (c :: t) = consHead c (splitCh ' ' t) by simp [splitCh, h2]]
        rw [hus, show consHead c (u2 :: us) = (c :: u2) :: us from rfl]
        have hdelim : isDelim c = false := by simp [isDelim, h1, h2]
        rw [show splitBoth (c :: cs) = consHead c (splitBoth cs) by
          simp [splitBoth, hdelim]]
        rw [← ih]
        rw [show tokensOf cs = ((splitCh '\n' cs).map (splitCh ' ')).flatten from rfl, hts,
          List.map_cons, List.flatten_cons, hus]
        rfl

/-- Related strings split into the same pieces: delimiter positions are the
same (a replaced space is still a delimiter) and non-delimiter characters are
equal. -/
lemma rel_splitBoth : ∀ s t, spaceToNl s t = true → splitBoth s = splitBoth t := by
  intro s
  induction s with
  | nil =>
    intro t h
    rw [spaceToNl_nil_left t h]
  | cons c cs ih =>
    intro t h
    cases t with
    | nil => simp [spaceToNl] at h
    | cons c2 cs2 =>
      rw [spaceToNl_cons] at h
      obtain ⟨h1, h2⟩ := (bool_and_split _ _).mp h
      by_cases hd : isDelim c = true
      · have hd2 : isDelim c2 = true := by
          rcases R_split h1 with rfl | ⟨rfl, rfl⟩
          · exact hd
          · decide
        rw [show splitBoth (c :: cs) = [] :: splitBoth cs by simp [splitBoth, hd],
          show splitBoth (c2 :: cs2) = [] :: splitBoth cs2 by simp [splitBoth, hd2],
          ih cs2 h2]
      · have hceq : c2 = c := by
          rcases R_split h1 with rfl | ⟨rfl, rfl⟩
          · rfl
          · exact absurd (by decide : isDelim ' ' = true) hd
        subst hceq
        rw [show splitBoth (c2 :: cs) = consHead c2 (splitBoth cs) by simp [splitBoth, hd],
          show splitBoth (c2 :: cs2) = consHead c2 (splitBoth cs2) by simp [splitBoth, hd],
          ih cs2 h2]

/-- C6: replacing any subset of the spaces of the input by newlines leaves
the extracted token sequence, and therefore the whole parse (hence the sum),
unchanged. -/
theorem parse_num_str_delim_insensitive (s t : Str) (h : spaceToNl s t = true) :
    extractTokens s = extractTokens t ∧ parse_num_str s = parse_num_str t := by
  have htok : extractTokens s = extractTokens t := by
    unfold extractTokens
    rw [tokensOf_eq_splitBoth, tokensOf_eq_splitBoth]
    exact rel_splitBoth _ _ (rel_trim _ _ (rel_stripCommas _ _ h))
  exact ⟨htok, by unfold parse_num_str; rw [htok]⟩

/-- Witness for C6: `1 2\n3` and `1\n2\n3` tokenize and parse identically. -/
theorem parse_num_str_delim_insensitive_witness :
    extractTokens ("1 2\n3".data) = extractTokens ("1\n2\n3".data)
    ∧ parse_num_str ("1 2\n3".data) = parse_num_str ("1\n2\n3".data) :=
  parse_num_str_delim_insensitive _ _ (by decide)

/-! ### Theorems about the summed example (claim C7) -/

/-- Counterexample to C7: on `0.1 10 20.5 30000 40.` the program's sum is the
f32 with scaled value 15396147·2¹⁴⁰, i.e. 15396147/512 = 30070.599609375 — it
exceeds 100.6 by almost 30000, while one ulp of f32 at this magnitude is 2⁻⁹,
so the claimed value 100.6 is not within any floating-point tolerance. -/
theorem parse_and_sum_not_100_6 :
    parse_and_sum ("0.1 10 20.5 30000 40.".data) = .ok (.finite (15396147 * 2 ^ 140))
    ∧ (503 : ℚ) / 5 + 29000 < toRat32 (.finite (15396147 * 2 ^ 140)) := by
  constructor
  · decide
  · show (503 : ℚ) / 5 + 29000 < ((15396147 * 2 ^ 140 : ℤ) : ℚ) / 2 ^ 149
    norm_num

/-- C7 as amended: `parse_and_sum` on the example succeeds, summing the parsed
32-bit values left to right, and the sum is 30070.6 within floating-point
tolerance (the exact result 15396147/512 is within 1/100 of 30070.6; one ulp
at this magnitude is 2⁻⁹ ≈ 0.002). -/
theorem parse_and_sum_roundtrip :
    parse_and_sum ("0.1 10 20.5 30000 40.".data) = .ok (.finite (15396147 * 2 ^ 140))
    ∧ (150353 : ℚ) / 5 - 1 / 100 < toRat32 (.finite (15396147 * 2 ^ 140))
    ∧ toRat32 (.finite (15396147 * 2 ^ 140)) < (150353 : ℚ) / 5 + 1 / 100 := by
  refine ⟨by decide, ?_, ?_⟩
  · show (150353 : ℚ) / 5 - 1 / 100 < ((15396147 * 2 ^ 140 : ℤ) : ℚ) / 2 ^ 149
    norm_num
  · show ((15396147 * 2 ^ 140 : ℤ) : ℚ) / 2 ^ 149 < (150353 : ℚ) / 5 + 1 / 100
    norm_num

/-! ### Theorems about main's stdin failure mode (claim C2) -/

/-- Counterexample to C2: when reading stdin fails, the run does not surface
an error through `main`'s error return (the `IoError`-style failure mode used
for files, printed as a one-line message); it panics on the `.unwrap()` of
line 28 instead. -/
theorem main_stdin_err_not_error :
    mainRun [("rsum".data)] (.error ("stdin io error".data)) (fun _ => .ok [])
      = .panicked ("stdin io error".data)
    ∧ isErrOutcome
        (mainRun [("rsum".data)] (.error ("stdin io error".data)) (fun _ => .ok []))
      = false :=
  ⟨rfl, rfl⟩

/-- C2 as amended: with input mode `Stdin`, an operating-system-level read
failure makes the program panic (terminate abnormally via the `.unwrap()`),
carrying the I/O error; it is not surfaced through the program's error
channel. -/
theorem main_stdin_err_panics (a0 e : Str) (readAll : Str → Except Str Str) :
    mainRun [a0] (.error e) readAll = .panicked e := rfl

end Rsum
